import Mathlib

/-!
Verification of the `indicator_recipes` core library
(`src/indicator_recipes/core.py`) against its specification.

Numbers are modelled as rationals (`ℚ`).  Python floats that can be `NaN`
are modelled as `Option ℚ`, with `none` standing for `NaN`.  A raised
`ValueError` is modelled as `Except.error` carrying an `IRErr`: the
`constraint` field is the fixed text of the message and `got` holds the
offending value when the source interpolates one into the message
(an f-string such as `"Scale must be positive, got {scale}"`), and is
`none` when the message is a plain string without the value.

The chi-square quantile function `scipy.stats.chi2.ppf` is a transcendental
numerical routine; it is kept abstract as a parameter
`chi2ppf : ℚ → ℚ → ℚ` (probability, degrees of freedom), and theorems
about `poisson_rate_ci` assume only the analytic facts used by the spec
(non-negativity, positivity and monotonicity of the quantile function).

`rolling_mean` delegates the windowing to `pandas.Series.rolling(...).mean()`;
the pandas behaviour is modelled from its documented semantics: fixed
window ending at `i`, shifted by `(window - 1) / 2` when `center` is set,
`NaN` entries excluded from both the sum and the observation count, and a
`ValueError` when `min_periods` exceeds `window`.
-/

/-- Error value for a Python `ValueError`: the static message text and the
offending value when the message interpolates one. -/
structure IRErr where
  constraint : String
  got : Option ℚ
deriving DecidableEq, Repr

deriving instance DecidableEq for Except

/-- Python's built-in `round` to an integer: round half to even
(banker's rounding), as used by `int(round(cases))` in `poisson_rate_ci`. -/
def pythonRound (q : ℚ) : ℤ :=
  let f := ⌊q⌋
  let r := q - (f : ℚ)
  if r < 1/2 then f
  else if 1/2 < r then f + 1
  else if f % 2 = 0 then f else f + 1

/-- `rate_per` on scalars: crude rate `cases / population * scale`. -/
def rate_per (cases population scale : ℚ) : Except IRErr ℚ :=
  if scale ≤ 0 then .error ⟨"Scale must be positive", some scale⟩
  else if population ≤ 0 then .error ⟨"Population must be positive", none⟩
  else .ok (cases / population * scale)

/-- `rate_per` on element-wise-paired collections.  The population check is
`np.any(population <= 0)` over the whole population array; the division is
element-wise. -/
def rate_per_list (cases populations : List ℚ) (scale : ℚ) : Except IRErr (List ℚ) :=
  if scale ≤ 0 then .error ⟨"Scale must be positive", some scale⟩
  else if populations.any (fun p => decide (p ≤ 0)) then
    .error ⟨"Population must be positive", none⟩
  else .ok (List.zipWith (fun c p => c / p * scale) cases populations)

/-- `poisson_rate_ci`, parameterised by the chi-square quantile function
`chi2ppf p df` (`scipy.stats.chi2.ppf`).  After validation the count is
rounded with Python `round`; the lower bound in count space is `0` for a
rounded count of `0` and otherwise `chi2ppf (alpha/2) (2*cases) / 2`; the
upper bound is `chi2ppf (1 - alpha/2) (2*(cases+1)) / 2`; both are rescaled
by `/ population * scale`. -/
def poisson_rate_ci (chi2ppf : ℚ → ℚ → ℚ) (cases population scale alpha : ℚ) :
    Except IRErr (ℚ × ℚ) :=
  if cases < 0 then .error ⟨"Cases must be non-negative", some cases⟩
  else if population ≤ 0 then .error ⟨"Population must be positive", some population⟩
  else if scale ≤ 0 then .error ⟨"Scale must be positive", some scale⟩
  else if ¬(0 < alpha ∧ alpha < 1) then
    .error ⟨"Alpha must be between 0 and 1 (exclusive)", some alpha⟩
  else
    let c : ℤ := pythonRound cases
    let lower_count : ℚ := if c = 0 then 0 else chi2ppf (alpha / 2) (2 * (c : ℚ)) / 2
    let upper_count : ℚ := chi2ppf (1 - alpha / 2) (2 * ((c : ℚ) + 1)) / 2
    .ok (lower_count / population * scale, upper_count / population * scale)

/-- `rate_ratio`: ratio of the two crude rates, with the `0/0` special case
returning `1.0` and a zero reference rate rejected. -/
def rate_ratio (cases_a pop_a cases_b pop_b : ℚ) : Except IRErr ℚ :=
  if pop_a ≤ 0 ∨ pop_b ≤ 0 then .error ⟨"Populations must be positive", none⟩
  else
    let rate_a := cases_a / pop_a
    let rate_b := cases_b / pop_b
    if rate_b = 0 then
      if rate_a = 0 then .ok 1
      else .error ⟨"Cannot compute rate ratio when reference rate is zero", none⟩
    else .ok (rate_a / rate_b)

/-- `rate_difference`: difference of the two scaled crude rates. -/
def rate_difference (cases_a pop_a cases_b pop_b scale : ℚ) : Except IRErr ℚ :=
  if scale ≤ 0 then .error ⟨"Scale must be positive", some scale⟩
  else if pop_a ≤ 0 ∨ pop_b ≤ 0 then .error ⟨"Populations must be positive", none⟩
  else .ok (cases_a / pop_a * scale - cases_b / pop_b * scale)

/-- `flag_small_numbers` on a scalar: `cases < threshold`. -/
def flag_small_numbers (cases threshold : ℚ) : Bool :=
  decide (cases < threshold)

/-- `flag_small_numbers` on a collection: element-wise `cases < threshold`. -/
def flag_small_numbers_list (cases : List ℚ) (threshold : ℚ) : List Bool :=
  cases.map (fun c => decide (c < threshold))

/-- Window bounds used by `pandas.Series.rolling(window).mean()` for a fixed
window at output index `i` (inclusive bounds, before clipping to the
sequence): the window ends at `i` plus an offset of `(window - 1) / 2` when
`center` is set, `0` otherwise. -/
def windowBounds (center : Bool) (w i : ℕ) : ℤ × ℤ :=
  let offset : ℕ := if center then (w - 1) / 2 else 0
  ((i : ℤ) - (w : ℤ) + 1 + (offset : ℤ), (i : ℤ) + (offset : ℤ))

/-- The non-missing values of `s` whose index lies in `[lo, hi]`. -/
def windowVals (s : List (Option ℚ)) (lo hi : ℤ) : List ℚ :=
  (List.range s.length).filterMap (fun (j : ℕ) =>
    if lo ≤ (j : ℤ) ∧ (j : ℤ) ≤ hi then s.getD j none else none)

/-- One output entry of the pandas rolling mean: the mean of the non-missing
values in the window at `i` when at least `mp` of them exist, `NaN`
otherwise. -/
def windowMean (s : List (Option ℚ)) (w mp : ℕ) (center : Bool) (i : ℕ) : Option ℚ :=
  let b := windowBounds center w i
  let vals := windowVals s b.1 b.2
  if mp ≤ vals.length then some (vals.sum / (vals.length : ℚ)) else none

/-- Modelled from the spec: `pandas.Series.rolling(window, center,
min_periods).mean()` — external library code not present in the repository.
pandas rejects `min_periods > window` for fixed windows with a
`ValueError` whose message carries both values; otherwise it returns one
windowed mean per input index. -/
def pandasRollingMean (s : List (Option ℚ)) (w : ℕ) (center : Bool) (mp : ℕ) :
    Except IRErr (List (Option ℚ)) :=
  if w < mp then .error ⟨"min_periods must be <= window", some (mp : ℚ)⟩
  else .ok ((List.range s.length).map (fun i => windowMean s w mp center i))

/-- `rolling_mean`: validates `window > 0` and, when given,
`min_periods > 0`; defaults `min_periods` to `window`; then delegates to
`pandas.Series.rolling(...).mean()`. -/
def rolling_mean (series : List (Option ℚ)) (window : ℤ) (center : Bool)
    (min_periods : Option ℤ) : Except IRErr (List (Option ℚ)) :=
  if window ≤ 0 then .error ⟨"Window must be positive", some (window : ℚ)⟩
  else
    match min_periods with
    | some mp =>
        if mp ≤ 0 then .error ⟨"min_periods must be positive", some (mp : ℚ)⟩
        else pandasRollingMean series window.toNat center mp.toNat
    | none => pandasRollingMean series window.toNat center window.toNat

/-- The post-validation computation of `direct_age_standardized_rate` on the
zipped rows `(count, population, normalized weight)`.  When every population
is positive no filtering or renormalization happens; otherwise the rows with
zero population are dropped, the kept weights are renormalized by their sum
`s2`, and the weighted rate sum is rescaled.  In float arithmetic a kept
renormalization with `s2 = 0` produces `0/0 = NaN` in every kept row and
hence a `NaN` total, modelled as `none`; with no kept rows `np.sum` of the
empty array is `0.0`. -/
def dasr_normalized (rows : List (ℚ × ℚ × ℚ)) (scale : ℚ) : Option ℚ :=
  if rows.all (fun r => decide (0 < r.2.1)) then
    some ((rows.map (fun r => r.1 / r.2.1 * r.2.2)).sum * scale)
  else
    let kept := rows.filter (fun r => decide (0 < r.2.1))
    let s2 := (kept.map (fun r => r.2.2)).sum
    if s2 = 0 ∧ ¬kept.isEmpty then none
    else some ((kept.map (fun r => r.1 / r.2.1 * (r.2.2 / s2))).sum * scale)

/-- `direct_age_standardized_rate`: validations in source order, global
weight normalization, then the zero-population handling and weighted sum of
`dasr_normalized`.  The result is a float, `none` standing for `NaN`. -/
def direct_age_standardized_rate (counts pops weights : List ℚ) (scale : ℚ) :
    Except IRErr (Option ℚ) :=
  if scale ≤ 0 then .error ⟨"Scale must be positive", some scale⟩
  else if ¬(counts.length = pops.length ∧ pops.length = weights.length) then
    .error ⟨"All input arrays must have the same length", none⟩
  else if counts.any (fun c => decide (c < 0)) then
    .error ⟨"Counts cannot be negative", none⟩
  else if pops.any (fun p => decide (p < 0)) then
    .error ⟨"Population cannot be negative", none⟩
  else if weights.any (fun w => decide (w < 0)) then
    .error ⟨"Standard weights cannot be negative", none⟩
  else if weights.sum ≤ 0 then
    .error ⟨"Standard weights must sum to a positive value", none⟩
  else
    .ok (dasr_normalized
      (counts.zip (pops.zip (weights.map (fun w => w / weights.sum)))) scale)

/-- Modelled from the spec (the wording of the age-standardization
contract): normalize all weights to sum to 1, exclude the strata whose
population is 0, renormalize the retained weights over the retained strata,
and return `scale` times the sum of stratum rate times renormalized
weight over the retained strata. -/
def dasr_spec (counts pops weights : List ℚ) (scale : ℚ) : ℚ :=
  let w1 := weights.map (fun w => w / weights.sum)
  let rows := counts.zip (pops.zip w1)
  let kept := rows.filter (fun r => decide (r.2.1 ≠ 0))
  let s2 := (kept.map (fun r => r.2.2)).sum
  scale * (kept.map (fun r => r.1 / r.2.1 * (r.2.2 / s2))).sum

/-- Modelled from the spec (the wording of the rolling-mean windowing):
the non-centered window for index `i` spans `[i-window+1, i]` and the
centered window spans `[i-⌊window/2⌋, i+⌈window/2⌉-1]`, both clipped to
the sequence bounds. -/
def specBounds (center : Bool) (w i : ℕ) : ℤ × ℤ :=
  if center then ((i : ℤ) - ((w / 2 : ℕ) : ℤ), (i : ℤ) + (((w + 1) / 2 : ℕ) : ℤ) - 1)
  else ((i : ℤ) - (w : ℤ) + 1, (i : ℤ))

/-- The spec's description of one rolling-mean entry: the arithmetic mean
of the non-missing values in the spec window at `i`, missing when fewer
than `mp` non-missing values fall in that window. -/
def specWindowMean (s : List (Option ℚ)) (w mp : ℕ) (center : Bool) (i : ℕ) : Option ℚ :=
  let b := specBounds center w i
  let vals := windowVals s b.1 b.2
  if mp ≤ vals.length then some (vals.sum / (vals.length : ℚ)) else none

/-- `pythonRound` of a non-negative rational is non-negative. -/
theorem pythonRound_nonneg (q : ℚ) (hq : 0 ≤ q) : 0 ≤ pythonRound q := by
  have h0 : (0 : ℤ) ≤ ⌊q⌋ := Int.floor_nonneg.mpr hq
  simp only [pythonRound]
  split_ifs <;> omega

/-- C5: `rate_per` returns `Count/Population × Scale` preserving shape
(scalar to scalar, collection to same-length collection) and signals
`InvalidArgument` when `Scale ≤ 0` or any population entry is `≤ 0`. -/
theorem rate_per_contract :
    (∀ c p s : ℚ, 0 ≤ c → 0 < p → 0 < s → rate_per c p s = .ok (c / p * s)) ∧
    (∀ (cs ps : List ℚ) (s : ℚ), cs.length = ps.length →
      (∀ p ∈ ps, 0 < p) → 0 < s →
      rate_per_list cs ps s = .ok (List.zipWith (fun c p => c / p * s) cs ps) ∧
      (List.zipWith (fun c p => c / p * s) cs ps).length = cs.length) ∧
    (∀ c p s : ℚ, s ≤ 0 ∨ p ≤ 0 → ∃ e, rate_per c p s = .error e) ∧
    (∀ (cs ps : List ℚ) (s : ℚ), s ≤ 0 ∨ (∃ p ∈ ps, p ≤ 0) →
      ∃ e, rate_per_list cs ps s = .error e) := by
  refine ⟨?_, ?_, ?_, ?_⟩
  · intro c p s _ hp hs
    rw [rate_per, if_neg (not_le.mpr hs), if_neg (not_le.mpr hp)]
  · intro cs ps s hlen hps hs
    have hany : ps.any (fun p => decide (p ≤ 0)) = false := by
      simp only [List.any_eq_false, decide_eq_true_eq]
      intro p hp
      exact not_le.mpr (hps p hp)
    rw [rate_per_list, if_neg (not_le.mpr hs), hany]
    exact ⟨rfl, by rw [List.length_zipWith, hlen, min_self]⟩
  · intro c p s h
    by_cases hs : s ≤ 0
    · exact ⟨_, by rw [rate_per, if_pos hs]⟩
    · have hp : p ≤ 0 := h.resolve_left hs
      exact ⟨_, by rw [rate_per, if_neg hs, if_pos hp]⟩
  · intro cs ps s h
    by_cases hs : s ≤ 0
    · exact ⟨_, by rw [rate_per_list, if_pos hs]⟩
    · have hp : ∃ p ∈ ps, p ≤ 0 := h.resolve_left hs
      have hany : ps.any (fun p => decide (p ≤ 0)) = true := by
        simp only [List.any_eq_true, decide_eq_true_eq]
        exact hp
      exact ⟨_, by rw [rate_per_list, if_neg hs, if_pos hany]⟩

/-- Witness for C5 at `rate_per(150, 50000, 100000) = 300`. -/
theorem rate_per_contract_witness : rate_per 150 50000 100000 = .ok 300 := by
  have h := rate_per_contract.1 150 50000 100000 (by norm_num) (by norm_num) (by norm_num)
  rw [h]
  norm_num

/-- C6: for positive populations, `rate_ratio` returns exactly `1.0` when
both rates are zero, signals `InvalidArgument` when only the reference rate
is zero, and otherwise returns the ratio of the two crude rates. -/
theorem rate_ratio_zero_reference :
    ∀ ca pa cb pb : ℚ, 0 < pa → 0 < pb →
      ((cb / pb = 0 ∧ ca / pa = 0 → rate_ratio ca pa cb pb = .ok 1) ∧
       (cb / pb = 0 ∧ ca / pa ≠ 0 → ∃ e, rate_ratio ca pa cb pb = .error e) ∧
       (cb / pb ≠ 0 → rate_ratio ca pa cb pb = .ok (ca / pa / (cb / pb)))) := by
  intro ca pa cb pb hpa hpb
  have hpop : ¬(pa ≤ 0 ∨ pb ≤ 0) := by
    push_neg
    exact ⟨hpa, hpb⟩
  refine ⟨?_, ?_, ?_⟩
  · intro ⟨hb, ha⟩
    rw [rate_ratio, if_neg hpop, if_pos hb, if_pos ha]
  · intro ⟨hb, ha⟩
    exact ⟨_, by rw [rate_ratio, if_neg hpop, if_pos hb, if_neg ha]⟩
  · intro hb
    rw [rate_ratio, if_neg hpop, if_neg hb]

/-- Witness for C6 at `rate_ratio(50, 10000, 25, 10000) = 2.0`. -/
theorem rate_ratio_zero_reference_witness : rate_ratio 50 10000 25 10000 = .ok 2 := by
  have h := (rate_ratio_zero_reference 50 10000 25 10000 (by norm_num) (by norm_num)).2.2
    (by norm_num)
  rw [h]
  norm_num

/-- C9: the input `counts=[0,5], pops=[1,0], weights=[0,1]` passes every
validation of `direct_age_standardized_rate` (equal lengths, no negative
entry, positive weight sum, positive scale), yet the renormalization over
the retained strata divides by zero and the function returns `NaN`
(modelled `none`) instead of signalling an error. -/
theorem dasr_nan_on_zero_retained_weight :
    direct_age_standardized_rate [0, 5] [1, 0] [0, 1] 100000 = .ok none := by
  simp only [direct_age_standardized_rate, dasr_normalized, List.sum_cons, List.sum_nil,
    List.map_cons, List.map_nil, List.zip_cons_cons, List.zip_nil_right, List.zip_nil_left,
    List.any_cons, List.any_nil, List.all_cons, List.all_nil, List.length_cons, List.length_nil,
    List.filter_cons, List.filter_nil]
  norm_num

/-- C10: for any series, window > 0 and min_periods > 0 with
min_periods > window, `rolling_mean` fails with an error (the check is the
pandas-side `min_periods <= window` requirement) rather than returning a
series. -/
theorem rolling_mean_min_periods_gt_window_errors :
    ∀ (series : List (Option ℚ)) (window mp : ℤ) (center : Bool),
      0 < window → 0 < mp → window < mp →
      rolling_mean series window center (some mp) =
        .error ⟨"min_periods must be <= window", some (mp : ℚ)⟩ := by
  intro s w mp c hw hmp hlt
  simp only [rolling_mean, pandasRollingMean]
  rw [if_neg (by omega), if_neg (by omega), if_pos (by omega)]
  have h : ((mp.toNat : ℕ) : ℚ) = (mp : ℚ) := by
    exact_mod_cast congrArg (Int.cast : ℤ → ℚ) (Int.toNat_of_nonneg hmp.le)
  rw [h]

/-- Witness for C10 at `window = 1`, `min_periods = 2`. -/
theorem rolling_mean_min_periods_gt_window_errors_witness :
    rolling_mean [some 1] 1 false (some 2) =
      .error ⟨"min_periods must be <= window", some ((2 : ℤ) : ℚ)⟩ :=
  rolling_mean_min_periods_gt_window_errors [some 1] 1 2 false (by norm_num) (by norm_num)
    (by norm_num)

/-- C1 counterexample: with an admissible chi-square quantile function, the
call `poisson_rate_ci(0.4, 1, 1, 0.5)` has `lower_rate == 0` although the
`Count` argument passed in was `0.4 ≠ 0`: the claimed equivalence
`lower_rate == 0 ↔ Count == 0` fails for fractional counts, because the
count is rounded before use. -/
theorem poisson_ci_lower_zero_cex :
    poisson_rate_ci (fun p k => p * k) (2/5) 1 1 (1/2) = .ok (0, 3/4) ∧
      (2/5 : ℚ) ≠ 0 := by
  constructor
  · simp only [poisson_rate_ci, pythonRound]
    norm_num
  · norm_num

/-- C1 amended: for a positive chi-square quantile function and validated
arguments, `poisson_rate_ci` succeeds and its lower bound is `0` exactly
when the rounded count `pythonRound cases` is `0` (for integer counts this
is exactly `Count == 0`). -/
theorem poisson_ci_lower_zero_iff_round :
    ∀ (chi2ppf : ℚ → ℚ → ℚ),
      (∀ p k, 0 < p → p < 1 → 0 < k → 0 < chi2ppf p k) →
      ∀ cases population scale alpha : ℚ,
        0 ≤ cases → 0 < population → 0 < scale → 0 < alpha → alpha < 1 →
        ∃ lu : ℚ × ℚ, poisson_rate_ci chi2ppf cases population scale alpha = .ok lu ∧
          (lu.1 = 0 ↔ pythonRound cases = 0) := by
  intro f hpos c pop s a hc hp hs ha1 ha2
  rw [poisson_rate_ci, if_neg (not_lt.mpr hc), if_neg (not_le.mpr hp),
    if_neg (not_le.mpr hs), if_neg (not_not_intro ⟨ha1, ha2⟩)]
  refine ⟨_, rfl, ?_⟩
  by_cases hc0 : pythonRound c = 0
  · simp [hc0]
  · simp only [hc0, if_false, iff_false]
    have hc1 : (1 : ℤ) ≤ pythonRound c := by
      have := pythonRound_nonneg c hc
      omega
    have hk : (0 : ℚ) < 2 * ((pythonRound c : ℤ) : ℚ) := by
      have : (1 : ℚ) ≤ ((pythonRound c : ℤ) : ℚ) := by exact_mod_cast hc1
      linarith
    have hppf : 0 < f (a / 2) (2 * ((pythonRound c : ℤ) : ℚ)) :=
      hpos _ _ (by linarith) (by linarith) hk
    have : 0 < f (a / 2) (2 * ((pythonRound c : ℤ) : ℚ)) / 2 / pop * s := by
      positivity
    exact ne_of_gt this

/-- Witness for the amended C1 at `cases = 3`. -/
theorem poisson_ci_lower_zero_iff_round_witness :
    ∃ lu : ℚ × ℚ, poisson_rate_ci (fun p k => p * k) 3 1 1 (1/2) = .ok lu ∧
      (lu.1 = 0 ↔ pythonRound 3 = 0) :=
  poisson_ci_lower_zero_iff_round (fun p k => p * k)
    (fun p k hp _ hk => mul_pos hp hk) 3 1 1 (1/2) (by norm_num) (by norm_num)
    (by norm_num) (by norm_num) (by norm_num)

/-- C4: for validated arguments, `poisson_rate_ci` succeeds with
`lower_rate ≤ upper_rate`, assuming the chi-square quantile function is
non-negative and monotone in its probability argument and in its degrees
of freedom. -/
theorem poisson_ci_lower_le_upper :
    ∀ (chi2ppf : ℚ → ℚ → ℚ),
      (∀ p k, 0 < p → p < 1 → 0 < k → 0 ≤ chi2ppf p k) →
      (∀ k p q, 0 < k → 0 < p → q < 1 → p ≤ q → chi2ppf p k ≤ chi2ppf q k) →
      (∀ p k l, 0 < p → p < 1 → 0 < k → k ≤ l → chi2ppf p k ≤ chi2ppf p l) →
      ∀ cases population scale alpha : ℚ,
        0 ≤ cases → 0 < population → 0 < scale → 0 < alpha → alpha < 1 →
        ∃ lu : ℚ × ℚ, poisson_rate_ci chi2ppf cases population scale alpha = .ok lu ∧
          lu.1 ≤ lu.2 := by
  intro f hnn hmp hmk c pop s a hc hp hs ha1 ha2
  rw [poisson_rate_ci, if_neg (not_lt.mpr hc), if_neg (not_le.mpr hp),
    if_neg (not_le.mpr hs), if_neg (not_not_intro ⟨ha1, ha2⟩)]
  refine ⟨_, rfl, ?_⟩
  have hup : 0 < 1 - a / 2 := by linarith
  have hup1 : 1 - a / 2 < 1 := by linarith
  have key : (if pythonRound c = 0 then (0 : ℚ)
        else f (a / 2) (2 * ((pythonRound c : ℤ) : ℚ)) / 2)
      ≤ f (1 - a / 2) (2 * (((pythonRound c : ℤ) : ℚ) + 1)) / 2 := by
    by_cases hc0 : pythonRound c = 0
    · rw [if_pos hc0, hc0]
      have : (0 : ℚ) ≤ f (1 - a / 2) (2 * (((0 : ℤ) : ℚ) + 1)) :=
        hnn _ _ hup hup1 (by norm_num)
      linarith
    · rw [if_neg hc0]
      have hc1 : (1 : ℤ) ≤ pythonRound c := by
        have := pythonRound_nonneg c hc
        omega
      have hcq : (1 : ℚ) ≤ ((pythonRound c : ℤ) : ℚ) := by exact_mod_cast hc1
      have h2c : (0 : ℚ) < 2 * ((pythonRound c : ℤ) : ℚ) := by linarith
      have step1 : f (a / 2) (2 * ((pythonRound c : ℤ) : ℚ))
          ≤ f (1 - a / 2) (2 * ((pythonRound c : ℤ) : ℚ)) :=
        hmp _ _ _ h2c (by linarith) hup1 (by linarith)
      have step2 : f (1 - a / 2) (2 * ((pythonRound c : ℤ) : ℚ))
          ≤ f (1 - a / 2) (2 * (((pythonRound c : ℤ) : ℚ) + 1)) :=
        hmk _ _ _ hup hup1 h2c (by linarith)
      linarith
  have hdiv : (if pythonRound c = 0 then (0 : ℚ)
        else f (a / 2) (2 * ((pythonRound c : ℤ) : ℚ)) / 2) / pop
      ≤ f (1 - a / 2) (2 * (((pythonRound c : ℤ) : ℚ) + 1)) / 2 / pop := by
    gcongr
  exact mul_le_mul_of_nonneg_right hdiv hs.le

/-- Witness for C4 at `poisson_rate_ci(150, 50000, 100000, 0.05)` with the
quantile function `p * k`. -/
theorem poisson_ci_lower_le_upper_witness :
    ∃ lu : ℚ × ℚ, poisson_rate_ci (fun p k => p * k) 150 50000 100000 (1/20) = .ok lu ∧
      lu.1 ≤ lu.2 :=
  poisson_ci_lower_le_upper (fun p k => p * k)
    (fun p k hp _ hk => (mul_pos hp hk).le)
    (fun k p q hk _ _ hpq => mul_le_mul_of_nonneg_right hpq hk.le)
    (fun p k l hp _ _ hkl => mul_le_mul_of_nonneg_left hkl hp.le)
    150 50000 100000 (1/20) (by norm_num) (by norm_num) (by norm_num) (by norm_num)
    (by norm_num)

/-- Multiplying every element of a list by a constant multiplies the sum. -/
theorem list_sum_map_mul (k : ℚ) (l : List ℚ) :
    (l.map (fun w => k * w)).sum = k * l.sum := by
  induction l with
  | nil => simp
  | cons x xs ih => simp [ih, mul_add]

/-- Scaling by a positive constant does not change which entries are
negative. -/
theorem list_any_neg_map_mul (k : ℚ) (hk : 0 < k) (l : List ℚ) :
    (l.map (fun w => k * w)).any (fun w => decide (w < 0)) =
      l.any (fun w => decide (w < 0)) := by
  induction l with
  | nil => rfl
  | cons x xs ih =>
    simp only [List.map_cons, List.any_cons, ih]
    congr 1
    exact decide_eq_decide.mpr
      ⟨fun h => by nlinarith, fun h => mul_neg_of_pos_of_neg hk h⟩

/-- C7: multiplying every standard weight by a positive constant `k` leaves
the result of `direct_age_standardized_rate` unchanged on valid inputs. -/
theorem dasr_weight_scaling_invariance :
    ∀ (counts pops weights : List ℚ) (scale k : ℚ),
      counts.length = pops.length → pops.length = weights.length →
      (∀ c ∈ counts, 0 ≤ c) → (∀ p ∈ pops, 0 ≤ p) → (∀ w ∈ weights, 0 ≤ w) →
      0 < weights.sum → 0 < scale → 0 < k →
      direct_age_standardized_rate counts pops (weights.map (fun w => k * w)) scale =
        direct_age_standardized_rate counts pops weights scale := by
  intro counts pops weights scale k hl1 hl2 _ _ _ _ _ hk
  have hsum' : (weights.map (fun w => k * w)).sum = k * weights.sum :=
    list_sum_map_mul k weights
  have hcond : (k * weights.sum ≤ 0) = (weights.sum ≤ 0) :=
    propext ⟨fun h => by nlinarith, fun h => by nlinarith⟩
  have hw1 : (weights.map (fun w => k * w)).map (fun w => w / (k * weights.sum)) =
      weights.map (fun w => w / weights.sum) := by
    rw [List.map_map]
    refine List.map_congr_left ?_
    intro w _
    simp only [Function.comp_apply]
    exact mul_div_mul_left w weights.sum (ne_of_gt hk)
  simp only [direct_age_standardized_rate, List.length_map,
    list_any_neg_map_mul k hk weights, hsum', hcond, hw1]

/-- Witness for C7 at the worked example with `k = 2`. -/
theorem dasr_weight_scaling_invariance_witness :
    direct_age_standardized_rate [10, 20, 50] [10000, 8000, 5000]
        ([(2/5), (7/20), (1/4)].map (fun w => 2 * w)) 100000 =
      direct_age_standardized_rate [10, 20, 50] [10000, 8000, 5000]
        [(2/5), (7/20), (1/4)] 100000 :=
  dasr_weight_scaling_invariance [10, 20, 50] [10000, 8000, 5000]
    [(2/5), (7/20), (1/4)] 100000 2 (by norm_num) (by norm_num)
    (by intro c hc; fin_cases hc <;> norm_num)
    (by intro p hp; fin_cases hp <;> norm_num)
    (by intro w hw; fin_cases hw <;> norm_num)
    (by norm_num) (by norm_num) (by norm_num)

/-- Zipping three lists where the third is mapped equals mapping the zipped
triples on the third component. -/
theorem zip3_map_third (counts pops ws : List ℚ) (g : ℚ → ℚ) :
    counts.zip (pops.zip (ws.map g)) =
      (counts.zip (pops.zip ws)).map (fun r => (r.1, r.2.1, g r.2.2)) := by
  induction counts generalizing pops ws with
  | nil => simp
  | cons c cs ih =>
    cases pops with
    | nil => simp
    | cons p ps =>
      cases ws with
      | nil => simp
      | cons w wss => simp [ih]

/-- Dividing every mapped value by a constant divides the sum. -/
theorem list_sum_map_div (l : List (ℚ × ℚ × ℚ)) (h : ℚ × ℚ × ℚ → ℚ) (S : ℚ) :
    (l.map (fun x => h x / S)).sum = (l.map h).sum / S := by
  induction l with
  | nil => simp
  | cons x xs ih => simp [ih, add_div]

/-- C2 counterexample: `counts=[0,1], pops=[1,0], weights=[0,1], scale=1`
satisfies every hypothesis of the claim (equal lengths, non-negative
entries, weight sum 1 > 0, positive scale), yet the function returns `NaN`
(`none`) and not the claimed renormalized weighted sum, because the single
retained stratum carries renormalized weight `0/0`. -/
theorem dasr_spec_formula_cex :
    direct_age_standardized_rate [0, 1] [1, 0] [0, 1] 1 = .ok none ∧
      direct_age_standardized_rate [0, 1] [1, 0] [0, 1] 1 ≠
        .ok (some (dasr_spec [0, 1] [1, 0] [0, 1] 1)) := by
  have h : direct_age_standardized_rate [0, 1] [1, 0] [0, 1] 1 = .ok none := by
    simp only [direct_age_standardized_rate, dasr_normalized, List.sum_cons, List.sum_nil,
      List.map_cons, List.map_nil, List.zip_cons_cons, List.zip_nil_right, List.zip_nil_left,
      List.any_cons, List.any_nil, List.all_cons, List.all_nil, List.length_cons,
      List.length_nil, List.filter_cons, List.filter_nil]
    norm_num
  refine ⟨h, ?_⟩
  rw [h]
  simp

/-- C2 amended: for equal-length non-negative inputs with positive total
weight sum and positive scale, and with the retained strata (population
> 0) carrying positive total weight, `direct_age_standardized_rate`
returns exactly the value described by the spec (`dasr_spec`): normalize
all weights, drop zero-population strata, renormalize the retained
weights, and take the scaled weighted sum of stratum rates; the worked
example evaluates to exactly 377.5. -/
theorem dasr_spec_formula :
    (∀ (counts pops weights : List ℚ) (scale : ℚ),
      counts.length = pops.length → pops.length = weights.length →
      (∀ c ∈ counts, 0 ≤ c) → (∀ p ∈ pops, 0 ≤ p) → (∀ w ∈ weights, 0 ≤ w) →
      0 < weights.sum → 0 < scale →
      0 < (((pops.zip weights).filter (fun q => decide (0 < q.1))).map
        (fun q => q.2)).sum →
      direct_age_standardized_rate counts pops weights scale =
        .ok (some (dasr_spec counts pops weights scale))) ∧
    direct_age_standardized_rate [10, 20, 50] [10000, 8000, 5000]
      [(2/5), (7/20), (1/4)] 100000 = .ok (some (755/2)) := by
  constructor
  · intro counts pops weights scale hl1 hl2 hc hp hw hS hscale hkept
    have hSne : weights.sum ≠ 0 := ne_of_gt hS
    have hanyc : counts.any (fun c => decide (c < 0)) = false := by
      simp only [List.any_eq_false, decide_eq_true_eq]
      intro x hx
      exact not_lt.mpr (hc x hx)
    have hanyp : pops.any (fun p => decide (p < 0)) = false := by
      simp only [List.any_eq_false, decide_eq_true_eq]
      intro x hx
      exact not_lt.mpr (hp x hx)
    have hanyw : weights.any (fun w => decide (w < 0)) = false := by
      simp only [List.any_eq_false, decide_eq_true_eq]
      intro x hx
      exact not_lt.mpr (hw x hx)
    rw [direct_age_standardized_rate, if_neg (not_le.mpr hscale),
      if_neg (not_not_intro ⟨hl1, hl2⟩), if_neg (by simp [hanyc]),
      if_neg (by simp [hanyp]), if_neg (by simp [hanyw]), if_neg (not_le.mpr hS)]
    congr 1
    -- abbreviations
    have hlen1 : (pops.zip weights).length ≤ counts.length := by
      rw [List.length_zip]
      omega
    have hlen2 : weights.length ≤ pops.length := le_of_eq hl2.symm
    have hrows := zip3_map_third counts pops weights (fun w => w / weights.sum)
    have hwcol : (counts.zip (pops.zip weights)).map (fun r => r.2.2) = weights := by
      rw [show (fun (r : ℚ × ℚ × ℚ) => r.2.2) = Prod.snd ∘ Prod.snd from rfl,
        ← List.map_map, List.map_snd_zip _ _ hlen1, List.map_snd_zip _ _ hlen2]
    have hfilter : ((counts.zip (pops.zip weights)).map
          (fun r => (r.1, r.2.1, r.2.2 / weights.sum))).filter
            (fun r => decide (0 < r.2.1)) =
        ((counts.zip (pops.zip weights)).filter
          (fun r => decide (0 < r.2.1))).map
            (fun r => (r.1, r.2.1, r.2.2 / weights.sum)) := by
      rw [List.filter_map]
      rfl
    have hall_iff : ((counts.zip (pops.zip weights)).map
          (fun r => (r.1, r.2.1, r.2.2 / weights.sum))).all
            (fun r => decide (0 < r.2.1)) =
        (counts.zip (pops.zip weights)).all (fun r => decide (0 < r.2.1)) := by
      rw [List.all_map]
      rfl
    have hmem : ∀ r ∈ (counts.zip (pops.zip weights)).map
        (fun r => (r.1, r.2.1, r.2.2 / weights.sum)), 0 ≤ r.2.1 := by
      intro r hr
      rcases List.mem_map.mp hr with ⟨r', hr', rfl⟩
      exact hp _ ((List.of_mem_zip ((List.of_mem_zip hr').2)).1)
    have hfilter_ne : ((counts.zip (pops.zip weights)).map
          (fun r => (r.1, r.2.1, r.2.2 / weights.sum))).filter
            (fun r => decide (r.2.1 ≠ 0)) =
        ((counts.zip (pops.zip weights)).map
          (fun r => (r.1, r.2.1, r.2.2 / weights.sum))).filter
            (fun r => decide (0 < r.2.1)) := by
      apply List.filter_congr
      intro r hr
      have h0 := hmem r hr
      simp only [decide_eq_decide]
      exact ⟨fun hne => lt_of_le_of_ne h0 (Ne.symm hne), fun hlt => ne_of_gt hlt⟩
    have hkeptW : (((counts.zip (pops.zip weights)).filter
          (fun r => decide (0 < r.2.1))).map (fun r => r.2.2)).sum =
        (((pops.zip weights).filter (fun q => decide (0 < q.1))).map
          (fun q => q.2)).sum := by
      have hlist : ((counts.zip (pops.zip weights)).filter
            (fun r => decide (0 < r.2.1))).map (fun r => r.2.2) =
          (((counts.zip (pops.zip weights)).map Prod.snd).filter
            (fun q => decide (0 < q.1))).map (fun q => q.2) := by
        rw [List.filter_map, List.map_map]
        rfl
      rw [hlist, List.map_snd_zip _ _ hlen1]
    simp only [dasr_spec, dasr_normalized]
    rw [hrows, hfilter_ne, hall_iff, hfilter]
    by_cases hall : (counts.zip (pops.zip weights)).all
        (fun r => decide (0 < r.2.1)) = true
    · -- every population positive: no renormalization on the code side,
      -- renormalization by 1 on the spec side
      rw [if_pos hall]
      have hself : (counts.zip (pops.zip weights)).filter
          (fun r => decide (0 < r.2.1)) = counts.zip (pops.zip weights) :=
        List.filter_eq_self.mpr (fun a ha => List.all_eq_true.mp hall a ha)
      rw [hself]
      have hs2 : (((counts.zip (pops.zip weights)).map
            (fun r => (r.1, r.2.1, r.2.2 / weights.sum))).map
              (fun r => r.2.2)).sum = 1 := by
        rw [List.map_map,
          show ((fun (r : ℚ × ℚ × ℚ) => r.2.2) ∘
              (fun (r : ℚ × ℚ × ℚ) => (r.1, r.2.1, r.2.2 / weights.sum))) =
            (fun (r : ℚ × ℚ × ℚ) => r.2.2 / weights.sum) from rfl,
          list_sum_map_div _ _ _, hwcol, div_self hSne]
      rw [hs2]
      simp only [div_one, mul_comm]
    · rw [if_neg hall]
      have hs2 : ((((counts.zip (pops.zip weights)).filter
            (fun r => decide (0 < r.2.1))).map
              (fun r => (r.1, r.2.1, r.2.2 / weights.sum))).map
              (fun r => r.2.2)).sum =
          (((pops.zip weights).filter (fun q => decide (0 < q.1))).map
            (fun q => q.2)).sum / weights.sum := by
        rw [List.map_map,
          show ((fun (r : ℚ × ℚ × ℚ) => r.2.2) ∘
              (fun (r : ℚ × ℚ × ℚ) => (r.1, r.2.1, r.2.2 / weights.sum))) =
            (fun (r : ℚ × ℚ × ℚ) => r.2.2 / weights.sum) from rfl,
          list_sum_map_div _ _ _, hkeptW]
      have hs2pos : 0 < ((((counts.zip (pops.zip weights)).filter
            (fun r => decide (0 < r.2.1))).map
              (fun r => (r.1, r.2.1, r.2.2 / weights.sum))).map
              (fun r => r.2.2)).sum := by
        rw [hs2]
        exact div_pos hkept hS
      rw [if_neg (fun hcontra => (ne_of_gt hs2pos) hcontra.1)]
      exact congrArg some (mul_comm _ _)
  · simp only [direct_age_standardized_rate, dasr_normalized, List.sum_cons, List.sum_nil,
      List.map_cons, List.map_nil, List.zip_cons_cons, List.zip_nil_right, List.zip_nil_left,
      List.any_cons, List.any_nil, List.all_cons, List.all_nil, List.length_cons,
      List.length_nil]
    norm_num

/-- Witness for the amended C2 at the worked example. -/
theorem dasr_spec_formula_witness :
    direct_age_standardized_rate [10, 20, 50] [10000, 8000, 5000]
        [(2/5), (7/20), (1/4)] 100000 =
      .ok (some (dasr_spec [10, 20, 50] [10000, 8000, 5000]
        [(2/5), (7/20), (1/4)] 100000)) :=
  dasr_spec_formula.1 [10, 20, 50] [10000, 8000, 5000] [(2/5), (7/20), (1/4)] 100000
    rfl rfl (by intro c hc; fin_cases hc <;> norm_num)
    (by intro p hp; fin_cases hp <;> norm_num)
    (by intro w hw; fin_cases hw <;> norm_num)
    (by norm_num) (by norm_num)
    (by simp only [List.zip_cons_cons, List.zip_nil_right, List.filter_cons,
      List.filter_nil, List.map_cons, List.map_nil, List.sum_cons, List.sum_nil]
        norm_num)

/-- For a positive window, the pandas fixed-window bounds (offset
`(window-1)/2` when centered) coincide with the spec's
`[i-⌊window/2⌋, i+⌈window/2⌉-1]` centered window and `[i-window+1, i]`
non-centered window. -/
theorem windowBounds_eq_specBounds (center : Bool) (w i : ℕ) (hw : 0 < w) :
    windowBounds center w i = specBounds center w i := by
  cases center with
  | false => simp [windowBounds, specBounds]
  | true =>
    simp only [windowBounds, specBounds, if_true]
    rw [Prod.mk.injEq]
    exact ⟨by omega, by omega⟩

/-- Each pandas rolling-mean entry equals the spec's description of it. -/
theorem windowMean_eq_specWindowMean (s : List (Option ℚ)) (w mp : ℕ) (center : Bool)
    (i : ℕ) (hw : 0 < w) :
    windowMean s w mp center i = specWindowMean s w mp center i := by
  simp only [windowMean, specWindowMean, windowBounds_eq_specBounds center w i hw]

/-- C3 counterexample: with `window = 2 > 0` and `min_periods = 3 > 0` the
claim's hypotheses hold, but `rolling_mean` raises the pandas
`min_periods <= window` error instead of returning a same-length series. -/
theorem rolling_mean_windowing_cex :
    rolling_mean [some 1, some 2] 2 false (some 3) =
      .error ⟨"min_periods must be <= window", some 3⟩ ∧
    ¬∃ out, rolling_mean [some 1, some 2] 2 false (some 3) = .ok out := by
  have h : rolling_mean [some 1, some 2] 2 false (some 3) =
      .error ⟨"min_periods must be <= window", some 3⟩ := by
    simp +decide only [rolling_mean, pandasRollingMean]
  refine ⟨h, ?_⟩
  rw [h]
  simp

/-- C3 amended: for `window > 0` and `0 < min_periods ≤ window`,
`rolling_mean` returns a same-length series whose entry `i` is the mean of
the non-missing values in the spec's (clipped) window at `i`, missing when
fewer than `min_periods` non-missing values fall in it; and the three
worked examples hold. -/
theorem rolling_mean_windowing :
    (∀ (series : List (Option ℚ)) (window mp : ℤ) (center : Bool),
      0 < window → 0 < mp → mp ≤ window →
      ∃ out, rolling_mean series window center (some mp) = .ok out ∧
        out.length = series.length ∧
        ∀ i < series.length,
          out.getD i none = specWindowMean series window.toNat mp.toNat center i) ∧
    rolling_mean [some 1, some 2, some 3, some 4, some 5] 3 false none =
      .ok [none, none, some 2, some 3, some 4] ∧
    rolling_mean [some 1, some 2, some 3, some 4, some 5] 3 false (some 1) =
      .ok [some 1, some (3/2), some 2, some 3, some 4] ∧
    rolling_mean [some 1, some 2, some 3, some 4, some 5] 3 true (some 1) =
      .ok [some (3/2), some 2, some 3, some 4, some (9/2)] := by
  refine ⟨?_, ?_, ?_, ?_⟩
  · intro s w mp c hw hmp hle
    simp only [rolling_mean]
    rw [if_neg (by omega), if_neg (by omega)]
    simp only [pandasRollingMean]
    rw [if_neg (by omega)]
    refine ⟨_, rfl, by simp, ?_⟩
    intro i hi
    rw [List.getD_eq_getElem _ _ (by simpa using hi)]
    simp only [List.getElem_map, List.getElem_range]
    exact windowMean_eq_specWindowMean s w.toNat mp.toNat c i (by omega)
  · simp +decide only [rolling_mean, pandasRollingMean, windowMean, windowVals, windowBounds,
      List.range_succ, List.range_zero, List.filterMap_cons, List.filterMap_nil,
      List.filterMap_append, List.map_append, List.map_cons, List.map_nil, List.getD,
      List.length_cons, List.length_nil, List.getElem?_cons_zero, List.getElem?_cons_succ,
      List.nil_append, List.cons_append, Option.getD_some, List.sum_cons, List.sum_nil]
    norm_num
  · simp +decide only [rolling_mean, pandasRollingMean, windowMean, windowVals, windowBounds,
      List.range_succ, List.range_zero, List.filterMap_cons, List.filterMap_nil,
      List.filterMap_append, List.map_append, List.map_cons, List.map_nil, List.getD,
      List.length_cons, List.length_nil, List.getElem?_cons_zero, List.getElem?_cons_succ,
      List.nil_append, List.cons_append, Option.getD_some, List.sum_cons, List.sum_nil]
    norm_num
  · simp +decide only [rolling_mean, pandasRollingMean, windowMean, windowVals, windowBounds,
      List.range_succ, List.range_zero, List.filterMap_cons, List.filterMap_nil,
      List.filterMap_append, List.map_append, List.map_cons, List.map_nil, List.getD,
      List.length_cons, List.length_nil, List.getElem?_cons_zero, List.getElem?_cons_succ,
      List.nil_append, List.cons_append, Option.getD_some, List.sum_cons, List.sum_nil]
    norm_num

/-- Witness for the amended C3 at a one-element series. -/
theorem rolling_mean_windowing_witness :
    ∃ out, rolling_mean [some 1] 1 false (some 1) = .ok out ∧
      out.length = ([some 1] : List (Option ℚ)).length ∧
      ∀ i < ([some 1] : List (Option ℚ)).length,
        out.getD i none = specWindowMean [some 1] (1 : ℤ).toNat (1 : ℤ).toNat false i :=
  rolling_mean_windowing.1 [some 1] 1 1 false (by norm_num) (by norm_num) (by norm_num)

/-- C8 counterexample: the population check of `rate_per` raises the plain
message `"Population must be positive"` without interpolating the
offending value, so not every `InvalidArgument` carries the offending
input value. -/
theorem error_payload_cex :
    ∃ e : IRErr, rate_per 1 0 100000 = .error e ∧ e.got = none := by
  refine ⟨⟨"Population must be positive", none⟩, ?_, rfl⟩
  rw [rate_per, if_neg (by norm_num), if_pos le_rfl]

/-- C8 amended: every `InvalidArgument` signalled by the seven core
functions names the violated constraint in its message; the four checks of
`poisson_rate_ci` (cases/population/scale/alpha), the window and
min_periods checks of `rolling_mean` (including the downstream pandas
check), and the scale checks of `rate_per`, `rate_difference` and
`direct_age_standardized_rate` interpolate the offending value into the
message, while the population checks of `rate_per`, `rate_ratio` and
`rate_difference`, the length, negativity and weight-sum checks of
`direct_age_standardized_rate`, and the zero-reference-rate check of
`rate_ratio` carry only the constraint, never the value
(`flag_small_numbers` signals no errors).  Stated as a complete payload
characterisation of every error each function can return, plus the scale
checks actually firing with the offending value. -/
theorem error_payload_constraint :
    (∀ c p s : ℚ, ∀ e, rate_per c p s = .error e →
      e = ⟨"Scale must be positive", some s⟩ ∨
      e = ⟨"Population must be positive", none⟩) ∧
    (∀ (cs ps : List ℚ) (s : ℚ), ∀ e, rate_per_list cs ps s = .error e →
      e = ⟨"Scale must be positive", some s⟩ ∨
      e = ⟨"Population must be positive", none⟩) ∧
    (∀ (f : ℚ → ℚ → ℚ) (c p s a : ℚ), ∀ e, poisson_rate_ci f c p s a = .error e →
      e = ⟨"Cases must be non-negative", some c⟩ ∨
      e = ⟨"Population must be positive", some p⟩ ∨
      e = ⟨"Scale must be positive", some s⟩ ∨
      e = ⟨"Alpha must be between 0 and 1 (exclusive)", some a⟩) ∧
    (∀ (series : List (Option ℚ)) (w : ℤ) (c : Bool) (mp : Option ℤ), ∀ e,
      rolling_mean series w c mp = .error e →
      e = ⟨"Window must be positive", some (w : ℚ)⟩ ∨
      (∃ m : ℤ, mp = some m ∧ e = ⟨"min_periods must be positive", some (m : ℚ)⟩) ∨
      e = ⟨"min_periods must be <= window", some ((((mp.getD w).toNat : ℕ)) : ℚ)⟩) ∧
    (∀ (counts pops ws : List ℚ) (s : ℚ), ∀ e,
      direct_age_standardized_rate counts pops ws s = .error e →
      e = ⟨"Scale must be positive", some s⟩ ∨
      e = ⟨"All input arrays must have the same length", none⟩ ∨
      e = ⟨"Counts cannot be negative", none⟩ ∨
      e = ⟨"Population cannot be negative", none⟩ ∨
      e = ⟨"Standard weights cannot be negative", none⟩ ∨
      e = ⟨"Standard weights must sum to a positive value", none⟩) ∧
    (∀ ca pa cb pb : ℚ, ∀ e, rate_ratio ca pa cb pb = .error e →
      e = ⟨"Populations must be positive", none⟩ ∨
      e = ⟨"Cannot compute rate ratio when reference rate is zero", none⟩) ∧
    (∀ ca pa cb pb s : ℚ, ∀ e, rate_difference ca pa cb pb s = .error e →
      e = ⟨"Scale must be positive", some s⟩ ∨
      e = ⟨"Populations must be positive", none⟩) ∧
    (∀ c p s : ℚ, s ≤ 0 → rate_per c p s = .error ⟨"Scale must be positive", some s⟩) ∧
    (∀ ca pa cb pb s : ℚ, s ≤ 0 →
      rate_difference ca pa cb pb s = .error ⟨"Scale must be positive", some s⟩) ∧
    (∀ (counts pops ws : List ℚ) (s : ℚ), s ≤ 0 →
      direct_age_standardized_rate counts pops ws s =
        .error ⟨"Scale must be positive", some s⟩) := by
  refine ⟨?_, ?_, ?_, ?_, ?_, ?_, ?_, ?_, ?_, ?_⟩
  · intro c p s e h
    rw [rate_per] at h
    split_ifs at h <;>
      (injection h with h'
       subst h'
       first
       | exact Or.inl rfl
       | exact Or.inr rfl)
  · intro cs ps s e h
    rw [rate_per_list] at h
    split_ifs at h <;>
      (injection h with h'
       subst h'
       first
       | exact Or.inl rfl
       | exact Or.inr rfl)
  · intro f c p s a e h
    rw [poisson_rate_ci] at h
    split_ifs at h <;>
      (injection h with h'
       subst h'
       first
       | exact Or.inl rfl
       | exact Or.inr (Or.inl rfl)
       | exact Or.inr (Or.inr (Or.inl rfl))
       | exact Or.inr (Or.inr (Or.inr rfl)))
  · intro series w c mp e h
    cases mp with
    | none =>
      simp only [rolling_mean, pandasRollingMean] at h
      split_ifs at h <;>
        (injection h with h'
         subst h'
         first
         | exact Or.inl rfl
         | exact Or.inr (Or.inr rfl))
    | some m =>
      simp only [rolling_mean, pandasRollingMean] at h
      split_ifs at h <;>
        (injection h with h'
         subst h'
         first
         | exact Or.inl rfl
         | exact Or.inr (Or.inl ⟨m, rfl, rfl⟩)
         | exact Or.inr (Or.inr rfl))
  · intro counts pops ws s e h
    rw [direct_age_standardized_rate] at h
    split_ifs at h <;>
      (injection h with h'
       subst h'
       first
       | exact Or.inl rfl
       | exact Or.inr (Or.inl rfl)
       | exact Or.inr (Or.inr (Or.inl rfl))
       | exact Or.inr (Or.inr (Or.inr (Or.inl rfl)))
       | exact Or.inr (Or.inr (Or.inr (Or.inr (Or.inl rfl))))
       | exact Or.inr (Or.inr (Or.inr (Or.inr (Or.inr rfl)))))
  · intro ca pa cb pb e h
    simp only [rate_ratio] at h
    split_ifs at h <;>
      (injection h with h'
       subst h'
       first
       | exact Or.inl rfl
       | exact Or.inr rfl)
  · intro ca pa cb pb s e h
    rw [rate_difference] at h
    split_ifs at h <;>
      (injection h with h'
       subst h'
       first
       | exact Or.inl rfl
       | exact Or.inr rfl)
  · intro c p s hs
    rw [rate_per, if_pos hs]
  · intro ca pa cb pb s hs
    rw [rate_difference, if_pos hs]
  · intro counts pops ws s hs
    rw [direct_age_standardized_rate, if_pos hs]

/-- Witness for the amended C8: the scale check of `rate_per` carries both
the constraint and the offending value. -/
theorem error_payload_constraint_witness :
    rate_per 1 1 (-1) = .error ⟨"Scale must be positive", some (-1)⟩ :=
  error_payload_constraint.2.2.2.2.2.2.2.1 1 1 (-1) (by norm_num)
